import Mathlib

/-!
# Verification of the opencode-mailbox plugin (src/index.ts)

A shallow embedding of the mailbox plugin.  The SQLite `messages` table is
modelled as a list of `StoredMessage` records together with the next
AUTOINCREMENT id; the in-memory `activeWatches` and `watchesBySession` maps
are modelled as functions into `Option`; the nullable `db` handle is a
boolean flag.  Poll-timer fires are modelled as explicit `tick` steps, and
the observable side effects of a tick (the `UPDATE ... SET read = 1`
statements and the `client.session.prompt` injection) are recorded as an
event list.
-/

namespace Mailbox

/-- One row of the SQLite `messages` table (src/index.ts, CREATE TABLE):
`id` is the AUTOINCREMENT primary key, `read` the 0/1 read flag. -/
structure StoredMessage where
  id : Nat
  recipient : String
  sender : String
  message : String
  timestamp : Nat
  read : Bool
deriving DecidableEq

/-- One entry of the `activeWatches` map.  `sessionId` records the session
captured by the poll-interval closure created in `startMailWatch` (the
session that created the watch); `instructions` and `refCount` are the
fields stored in the map entry. -/
structure Watch where
  instructions : String
  refCount : Nat
  sessionId : String
deriving DecidableEq

/-- Observable side effects of a poll tick: a `markMessageAsRead` UPDATE,
or an injection of a message batch into a session
(`injectMailMessages` / `client.session.prompt`). -/
inductive Event where
  | markRead (recipient : String) (timestamp : Nat)
  | inject (sessionId : String) (recipient : String)
      (messages : List StoredMessage) (instructions : String)
deriving DecidableEq

/-- The process-wide mutable state of the plugin:
the SQLite table (`store`, `nextId`), the nullable `db` handle
(`dbOpen = true` iff `db !== null`), the `activeWatches` map and the
`watchesBySession` map (`none` models an absent `Map` key). -/
structure State where
  store : List StoredMessage
  nextId : Nat
  dbOpen : Bool
  activeWatches : String → Option Watch
  watchesBySession : String → Option (List String)

/-- Fresh process state: empty table, no db handle, no watches. -/
def initState : State where
  store := []
  nextId := 0
  dbOpen := false
  activeWatches := fun _ => none
  watchesBySession := fun _ => none

/-! ## Database layer -/

/-- `resetDatabaseConnection` (src/index.ts:37): close and null the db
handle. -/
def resetDatabaseConnection (s : State) : State :=
  { s with dbOpen := false }

/-- JS `String.toLowerCase` (char-by-char), written over the character
list so that it evaluates inside the kernel. -/
def strToLower (s : String) : String :=
  ⟨s.data.map Char.toLower⟩

/-- Substring test on character lists, mirroring JS `String.includes`. -/
def charsInclude (pat : List Char) : List Char → Bool
  | [] => pat.isEmpty
  | c :: cs => pat.isPrefixOf (c :: cs) || charsInclude pat cs

/-- JS `message.includes(pat)`. -/
def strIncludes (s pat : String) : Bool :=
  charsInclude pat.toList s.toList

/-- `isDatabaseFileError` (src/index.ts:52): classify an error message as a
missing/corrupt/locked database-file condition.  The argument is the
(already extracted) `error.message`. -/
def isDatabaseFileError (errMsg : String) : Bool :=
  let m := strToLower errMsg
  strIncludes m "database disk image is malformed" ||
  strIncludes m "no such table" ||
  strIncludes m "unable to open database file" ||
  strIncludes m "database is locked" ||
  strIncludes m "disk i/o error" ||
  strIncludes m "no more rows available" ||
  strIncludes m "unable to close" ||
  strIncludes m "bad parameter or other api misuse"

/-- `addMessage` (src/index.ts:113): lazily opens the database, then
INSERTs a row with lower-cased recipient and sender, `read = 0`, and the
next AUTOINCREMENT id. -/
def addMessage (s : State) (recipient sender message : String) (timestamp : Nat) :
    State :=
  { s with
    dbOpen := true
    store := s.store ++
      [⟨s.nextId, strToLower recipient, strToLower sender, message, timestamp, false⟩]
    nextId := s.nextId + 1 }

/-- Comparison used by `ORDER BY timestamp ASC`. -/
def byTimestamp (a b : StoredMessage) : Prop :=
  a.timestamp ≤ b.timestamp

instance : DecidableRel byTimestamp :=
  fun a b => Nat.decLe a.timestamp b.timestamp

instance : IsTotal StoredMessage byTimestamp :=
  ⟨fun a b => Nat.le_total a.timestamp b.timestamp⟩

instance : IsTrans StoredMessage byTimestamp :=
  ⟨fun _ _ _ => Nat.le_trans⟩

/-- Row filter of the `getUnreadMessages` SELECT:
`WHERE recipient = ? AND read = 0` (the bound parameter is
`recipient.toLowerCase()`). -/
def unreadPred (recipient : String) (m : StoredMessage) : Bool :=
  m.recipient == strToLower recipient && !m.read

/-- `getUnreadMessages` (src/index.ts:128): unread rows for the (lower-cased)
recipient, `ORDER BY timestamp ASC`. -/
def getUnreadMessages (store : List StoredMessage) (recipient : String) :
    List StoredMessage :=
  List.insertionSort byTimestamp (store.filter (unreadPred recipient))

/-- `markMessageAsRead` (src/index.ts:142):
`UPDATE messages SET read = 1 WHERE recipient = ? AND timestamp = ?`
(the recipient parameter is lower-cased).  Every matching row is updated. -/
def markMessageAsRead (store : List StoredMessage) (recipient : String)
    (timestamp : Nat) : List StoredMessage :=
  store.map fun m =>
    if m.recipient == strToLower recipient && m.timestamp == timestamp then
      { m with read := true }
    else m

/-- The tick's marking loop (src/index.ts:200): one `markMessageAsRead` per
fetched message, in fetch order. -/
def markAllRead (store : List StoredMessage) (recipient : String)
    (msgs : List StoredMessage) : List StoredMessage :=
  msgs.foldl (fun st m => markMessageAsRead st recipient m.timestamp) store

/-! ## Watch system -/

/-- JS `Set.add`: insert if absent (insertion order preserved). -/
def addToSet (l : List String) (x : String) : List String :=
  if x ∈ l then l else l ++ [x]

/-- `startMailWatch` (src/index.ts:164).  If a watch for `recipient` already
exists, increment its `refCount` and record the recipient in the calling
session's set; otherwise create a new entry with `refCount = 1` whose poll
closure captures this `sessionId` and `instructions`. -/
def startMailWatch (s : State) (recipient sessionId instructions : String) :
    State :=
  match s.activeWatches recipient with
  | some w =>
      { s with
        activeWatches := fun r =>
          if r = recipient then some { w with refCount := w.refCount + 1 }
          else s.activeWatches r
        watchesBySession := fun sid =>
          if sid = sessionId then
            some (addToSet ((s.watchesBySession sid).getD []) recipient)
          else s.watchesBySession sid }
  | none =>
      { s with
        activeWatches := fun r =>
          if r = recipient then some ⟨instructions, 1, sessionId⟩
          else s.activeWatches r
        watchesBySession := fun sid =>
          if sid = sessionId then
            some (addToSet ((s.watchesBySession sid).getD []) recipient)
          else s.watchesBySession sid }

/-- `stopMailWatch` (src/index.ts:237): clear the interval and delete the
entry (modelled together as removing the entry). -/
def stopMailWatch (s : State) (recipient : String) : State :=
  { s with
    activeWatches := fun r =>
      if r = recipient then none else s.activeWatches r }

/-- One iteration of the decrement loop shared by `stopWatchingMailTool`
(src/index.ts:408) and the `session.end` hook (src/index.ts:493): if a watch
exists for `r`, decrement `refCount`, stop the watch when it reaches 0, and
(for the tool) record `r` in the `stoppedWatches` list. -/
def decrementForSession (W : String → Option Watch) :
    List String → (String → Option Watch) × List String
  | [] => (W, [])
  | r :: rest =>
      match W r with
      | none => decrementForSession W rest
      | some w =>
          if w.refCount - 1 = 0 then
            let p := decrementForSession (fun r' => if r' = r then none else W r') rest
            (p.1, r :: p.2)
          else
            let p := decrementForSession
              (fun r' =>
                if r' = r then some { w with refCount := w.refCount - 1 }
                else W r') rest
            (p.1, r :: p.2)

/-- `stopWatchingMailTool.execute` (src/index.ts:399): decrement every watch
recorded for the session, then delete the session's entry from
`watchesBySession`; returns the list of recipients it touched. -/
def stopWatchingMailTool (s : State) (sessionId : String) :
    State × List String :=
  match s.watchesBySession sessionId with
  | none => (s, [])
  | some recips =>
      let p := decrementForSession s.activeWatches recips
      ({ s with
         activeWatches := p.1
         watchesBySession := fun sid =>
           if sid = sessionId then none else s.watchesBySession sid }, p.2)

/-- The `session.end` hook (src/index.ts:485): same decrement loop, no
return value. -/
def sessionEndHook (s : State) (sessionId : String) : State :=
  match s.watchesBySession sessionId with
  | none => s
  | some recips =>
      { s with
        activeWatches := (decrementForSession s.activeWatches recips).1
        watchesBySession := fun sid =>
          if sid = sessionId then none else s.watchesBySession sid }

/-- One fire of the poll interval created in `startMailWatch`
(src/index.ts:183): if the watch entry is gone, do nothing; otherwise fetch
the unread messages, return if none, else mark them all read and then
inject the whole batch once into the session captured by the closure. -/
def tick (s : State) (recipient : String) : State × List Event :=
  match s.activeWatches recipient with
  | none => (s, [])
  | some w =>
      let unread := getUnreadMessages s.store recipient
      if unread.isEmpty then ({ s with dbOpen := true }, [])
      else
        ({ s with
           dbOpen := true
           store := markAllRead s.store recipient unread },
         unread.map (fun m => Event.markRead recipient m.timestamp) ++
           [Event.inject w.sessionId recipient unread w.instructions])

/-- The catch handler of the poll interval (src/index.ts:212): on a
database-file error, reset the connection; any other error is only
logged. -/
def tickStoreFailure (s : State) (errMsg : String) : State :=
  if isDatabaseFileError errMsg then resetDatabaseConnection s else s

/-! ## Tools (façade) -/

/-- `watchUnreadMailTool.execute` (src/index.ts:385): lower-case the name,
then start (or join) the watch. -/
def watchUnreadMailTool (s : State) (name sessionId instructions : String) :
    State :=
  startMailWatch s (strToLower name) sessionId instructions

/-- Outcome-driven model of one `addMessage` attempt inside
`sendMailTool.execute`: `none` means the store call succeeds, `some e`
means it throws an error whose message is `e` (before any row is
inserted). -/
def attemptAppend (s : State) (to_ from_ message : String) (ts : Nat)
    (outcome : Option String) : Except String State :=
  match outcome with
  | none => Except.ok (addMessage s to_ from_ message ts)
  | some e => Except.error e

/-- `sendMailTool.execute` (src/index.ts:346): lower-case to/from, try the
append; on a database-file error reset the connection and retry exactly
once (a failure of the retry propagates), on any other error rethrow.
`o1`/`o2` are the outcomes the store gives the first and second attempt;
the returned `Nat` counts the append attempts actually made. -/
def sendMailTool (s : State) (to_ from_ message : String) (ts : Nat)
    (o1 o2 : Option String) : Except String State × Nat :=
  match attemptAppend s (strToLower to_) (strToLower from_) message ts o1 with
  | Except.ok s1 => (Except.ok s1, 1)
  | Except.error e1 =>
      if isDatabaseFileError e1 then
        match attemptAppend (resetDatabaseConnection s) (strToLower to_)
            (strToLower from_) message ts o2 with
        | Except.ok s2 => (Except.ok s2, 2)
        | Except.error e2 => (Except.error e2, 2)
      else (Except.error e1, 1)

/-! ## Traces -/

/-- Interleavable operations: successful tool calls, the session-end hook,
and poll-timer fires. -/
inductive Op where
  | sendMail (to_ from_ message : String) (ts : Nat)
  | watchUnreadMail (name sessionId instructions : String)
  | stopWatchingMail (sessionId : String)
  | sessionEnd (sessionId : String)
  | tick (recipient : String)

/-- Effect of one operation on the state, with the tick's observable
events. -/
def step (s : State) : Op → State × List Event
  | Op.sendMail to_ from_ message ts =>
      (addMessage s (strToLower to_) (strToLower from_) message ts, [])
  | Op.watchUnreadMail name sessionId instructions =>
      (watchUnreadMailTool s name sessionId instructions, [])
  | Op.stopWatchingMail sessionId => ((stopWatchingMailTool s sessionId).1, [])
  | Op.sessionEnd sessionId => (sessionEndHook s sessionId, [])
  | Op.tick recipient => tick s recipient

/-- Run a trace, accumulating emitted events. -/
def runAcc (s : State) (evs : List Event) : List Op → State × List Event
  | [] => (s, evs)
  | op :: ops =>
      let p := step s op
      runAcc p.1 (evs ++ p.2) ops

/-- Run a trace from a state with no prior events. -/
def run (s : State) (ops : List Op) : State × List Event :=
  runAcc s [] ops

/-- Iterate `tick` for one recipient `n` times, collecting events. -/
def tickN (s : State) (recipient : String) : Nat → State × List Event
  | 0 => (s, [])
  | n + 1 =>
      let p := tick s recipient
      let q := tickN p.1 recipient n
      (q.1, p.2 ++ q.2)

/-! ## Proof-support definitions -/

/-- Cumulative effect on one row of marking a whole batch of timestamps
read (the composition of the tick's `markMessageAsRead` calls). -/
def markFlag (recipient : String) (tss : List Nat) (m : StoredMessage) :
    StoredMessage :=
  if m.recipient == strToLower recipient && tss.any (fun u => m.timestamp == u)
  then { m with read := true }
  else m

/-- Is this event an injection (a `client.session.prompt` call)? -/
def Event.isInject : Event → Bool
  | Event.markRead _ _ => false
  | Event.inject _ _ _ _ => true

/-- Target session of an injection event. -/
def Event.injSessionId : Event → Option String
  | Event.markRead _ _ => none
  | Event.inject sid _ _ _ => some sid

/-- Message batch carried by an injection event. -/
def Event.injMessages : Event → List StoredMessage
  | Event.markRead _ _ => []
  | Event.inject _ _ msgs _ => msgs

/-- Does this event inject a message with row id `i`? -/
def Event.mentionsId (e : Event) (i : Nat) : Bool :=
  e.injMessages.any (fun m => m.id == i)

/-- How many injection events of the trace carry the message with row id
`i`. -/
def injCount (evs : List Event) (i : Nat) : Nat :=
  (evs.filter (fun e => e.mentionsId i)).length

/-- Well-formedness that SQLite AUTOINCREMENT guarantees for the table:
ids are below the next id and pairwise distinct. -/
def storeWF (s : State) : Prop :=
  (∀ m ∈ s.store, m.id < s.nextId) ∧ (s.store.map StoredMessage.id).Nodup

/-- Delivery invariant carried along a trace: the store is well formed, no
message id has been injected more than once, unread messages have never
been injected, and every injected id was allocated. -/
def Inv (s : State) (evs : List Event) : Prop :=
  storeWF s ∧
  (∀ i, injCount evs i ≤ 1) ∧
  (∀ m ∈ s.store, m.read = false → injCount evs m.id = 0) ∧
  (∀ e ∈ evs, ∀ i, e.mentionsId i = true → i < s.nextId)

/-- Scenario for delivery fan-out: sessions A and B both watch samus
(A first, with instructions "summarize"), then link sends one message. -/
def fanoutScenario : State :=
  (step
    (watchUnreadMailTool (watchUnreadMailTool initState "samus" "A" "summarize")
      "samus" "B" "ignored")
    (Op.sendMail "samus" "link" "hi" 100)).1

/-- `n` successive `watch_unread_mail` calls for the same name by the same
session. -/
def iterWatch (s : State) (name sid instr : String) : Nat → State
  | 0 => s
  | n + 1 => watchUnreadMailTool (iterWatch s name sid instr n) name sid instr

/-! ## Marking lemmas -/

theorem markFlag_id (r : String) (tss : List Nat) (m : StoredMessage) :
    (markFlag r tss m).id = m.id := by
  unfold markFlag; split <;> rfl

theorem markFlag_cons (r : String) (t : Nat) (tss : List Nat)
    (m : StoredMessage) :
    markFlag r tss
      (if m.recipient == strToLower r && m.timestamp == t then
        { m with read := true }
      else m) =
    markFlag r (t :: tss) m := by
  cases h1 : (m.recipient == strToLower r) with
  | false => simp [markFlag, h1]
  | true =>
      cases h2 : (m.timestamp == t) with
      | false => simp [markFlag, h1, h2]
      | true =>
          cases h3 : tss.any (fun u => m.timestamp == u) <;>
            simp [markFlag, h1, h2, h3]

theorem markAllRead_eq_map (st : List StoredMessage) (r : String)
    (msgs : List StoredMessage) :
    markAllRead st r msgs =
      st.map (markFlag r (msgs.map StoredMessage.timestamp)) := by
  induction msgs generalizing st with
  | nil =>
      simp only [markAllRead, List.foldl_nil, List.map_nil]
      calc st = st.map (fun m => m) := by rw [List.map_id']
        _ = st.map (markFlag r []) :=
          List.map_congr_left fun m _ => by simp [markFlag]
  | cons x xs ih =>
      have h0 : markAllRead st r (x :: xs) =
          markAllRead (markMessageAsRead st r x.timestamp) r xs := rfl
      rw [h0, ih, markMessageAsRead, List.map_map, List.map_cons]
      exact List.map_congr_left fun m _ => markFlag_cons r x.timestamp _ m

theorem markAllRead_map_id (st : List StoredMessage) (r : String)
    (msgs : List StoredMessage) :
    (markAllRead st r msgs).map StoredMessage.id = st.map StoredMessage.id := by
  rw [markAllRead_eq_map, List.map_map]
  exact List.map_congr_left fun m _ => markFlag_id r _ m

/-! ## Unread-query lemmas -/

theorem mem_getUnreadMessages {store : List StoredMessage} {r : String}
    {m : StoredMessage} :
    m ∈ getUnreadMessages store r ↔ m ∈ store ∧ unreadPred r m = true := by
  unfold getUnreadMessages
  rw [List.mem_insertionSort, List.mem_filter]

theorem unreadPred_eq_true {r : String} {m : StoredMessage} :
    unreadPred r m = true ↔ m.recipient = strToLower r ∧ m.read = false := by
  unfold unreadPred
  rw [Bool.and_eq_true, beq_iff_eq, Bool.not_eq_true']

/-! ## Injection-count lemmas -/

theorem injCount_append (a b : List Event) (i : Nat) :
    injCount (a ++ b) i = injCount a i + injCount b i := by
  simp [injCount, List.filter_append]

theorem injCount_marks (r : String) (ms : List StoredMessage) (i : Nat) :
    injCount (ms.map fun m => Event.markRead r m.timestamp) i = 0 := by
  unfold injCount
  rw [List.length_eq_zero, List.filter_eq_nil_iff]
  intro e he
  obtain ⟨m, _, rfl⟩ := List.mem_map.1 he
  simp [Event.mentionsId, Event.injMessages]

theorem injCount_singleton (e : Event) (i : Nat) :
    injCount [e] i = if e.mentionsId i = true then 1 else 0 := by
  cases h : e.mentionsId i <;> simp [injCount, List.filter, h]

theorem injCount_zero_of_unmentioned {evs : List Event} {i : Nat}
    (h : ∀ e ∈ evs, e.mentionsId i = false) : injCount evs i = 0 := by
  unfold injCount
  rw [List.length_eq_zero, List.filter_eq_nil_iff]
  intro e he
  simp [h e he]

/-! ## Frame lemmas -/

theorem startMailWatch_store (s : State) (r sid instr : String) :
    (startMailWatch s r sid instr).store = s.store := by
  unfold startMailWatch; cases s.activeWatches r <;> rfl

theorem startMailWatch_nextId (s : State) (r sid instr : String) :
    (startMailWatch s r sid instr).nextId = s.nextId := by
  unfold startMailWatch; cases s.activeWatches r <;> rfl

theorem stopWatchingMailTool_store (s : State) (sid : String) :
    ((stopWatchingMailTool s sid).1).store = s.store := by
  unfold stopWatchingMailTool; cases s.watchesBySession sid <;> rfl

theorem stopWatchingMailTool_nextId (s : State) (sid : String) :
    ((stopWatchingMailTool s sid).1).nextId = s.nextId := by
  unfold stopWatchingMailTool; cases s.watchesBySession sid <;> rfl

theorem sessionEndHook_store (s : State) (sid : String) :
    (sessionEndHook s sid).store = s.store := by
  unfold sessionEndHook; cases s.watchesBySession sid <;> rfl

theorem sessionEndHook_nextId (s : State) (sid : String) :
    (sessionEndHook s sid).nextId = s.nextId := by
  unfold sessionEndHook; cases s.watchesBySession sid <;> rfl

/-! ## Invariant preservation -/

theorem inv_congr {s s' : State} {evs : List Event} (h : Inv s evs)
    (hst : s'.store = s.store) (hn : s'.nextId = s.nextId) : Inv s' evs := by
  obtain ⟨⟨hlt, hnd⟩, hcnt, hunread, hbound⟩ := h
  refine ⟨⟨?_, ?_⟩, hcnt, ?_, ?_⟩
  · intro m hm; rw [hn]; exact hlt m (hst ▸ hm)
  · rw [hst]; exact hnd
  · intro m hm hr; exact hunread m (hst ▸ hm) hr
  · intro e he i hi; rw [hn]; exact hbound e he i hi

theorem addMessage_inv {s : State} {evs : List Event} (h : Inv s evs)
    (recipient sender message : String) (ts : Nat) :
    Inv (addMessage s recipient sender message ts) evs := by
  obtain ⟨⟨hlt, hnd⟩, hcnt, hunread, hbound⟩ := h
  refine ⟨⟨?_, ?_⟩, hcnt, ?_, ?_⟩
  · intro m hm
    rcases List.mem_append.1 hm with hm | hm
    · exact Nat.lt_succ_of_lt (hlt m hm)
    · rw [List.mem_singleton.1 hm]
      exact Nat.lt_succ_self _
  · show ((s.store ++ [_]).map StoredMessage.id).Nodup
    rw [List.map_append]
    refine List.Nodup.append hnd (List.nodup_singleton _) ?_
    intro a ha hb
    simp only [List.map_cons, List.map_nil, List.mem_singleton] at hb
    obtain ⟨m, hm, rfl⟩ := List.mem_map.1 ha
    exact absurd (hb ▸ hlt m hm) (Nat.lt_irrefl _)
  · intro m hm hr
    rcases List.mem_append.1 hm with hm | hm
    · exact hunread m hm hr
    · rw [List.mem_singleton.1 hm]
      apply injCount_zero_of_unmentioned
      intro e he
      cases hme : e.mentionsId s.nextId with
      | false => rfl
      | true => exact absurd (hbound e he _ hme) (Nat.lt_irrefl _)
  · intro e he i hi
    exact Nat.lt_succ_of_lt (hbound e he i hi)

theorem tick_inv {s : State} {evs : List Event} (r : String) (h : Inv s evs) :
    Inv (tick s r).1 (evs ++ (tick s r).2) := by
  obtain ⟨⟨hlt, hnd⟩, hcnt, hunread, hbound⟩ := h
  cases hw : s.activeWatches r with
  | none =>
      simp only [tick, hw, List.append_nil]
      exact ⟨⟨hlt, hnd⟩, hcnt, hunread, hbound⟩
  | some w =>
      cases hu : (getUnreadMessages s.store r).isEmpty with
      | true =>
          simp only [tick, hw, hu, if_true, List.append_nil]
          exact ⟨⟨hlt, hnd⟩, hcnt, hunread, hbound⟩
      | false =>
          simp only [tick, hw, hu, Bool.false_eq_true, if_false]
          set U := getUnreadMessages s.store r with hU
          set txs := U.map StoredMessage.timestamp with htxs
          set inj := Event.inject w.sessionId r U w.instructions with hinj
          set marks := U.map (fun m => Event.markRead r m.timestamp) with hmarks
          have hmap : markAllRead s.store r U = s.store.map (markFlag r txs) :=
            markAllRead_eq_map s.store r U
          have hMention : ∀ i, inj.mentionsId i = true → ∃ x ∈ U, x.id = i := by
            intro i hi
            simpa [hinj, Event.mentionsId, Event.injMessages] using hi
          have hcountsplit : ∀ i,
              injCount (evs ++ (marks ++ [inj])) i = injCount evs i + injCount [inj] i := by
            intro i
            rw [injCount_append, injCount_append, hmarks, injCount_marks]
            omega
          refine ⟨⟨?_, ?_⟩, ?_, ?_, ?_⟩
          · intro m hm
            rw [hmap] at hm
            obtain ⟨m0, hm0, rfl⟩ := List.mem_map.1 hm
            rw [markFlag_id]
            exact hlt m0 hm0
          · show ((markAllRead s.store r U).map StoredMessage.id).Nodup
            rw [markAllRead_map_id]
            exact hnd
          · intro i
            rw [hcountsplit i, injCount_singleton]
            cases hme : inj.mentionsId i with
            | false => simpa [hme] using hcnt i
            | true =>
                obtain ⟨x, hxU, rfl⟩ := hMention i hme
                obtain ⟨hxst, hxp⟩ := mem_getUnreadMessages.1 hxU
                have hxread := (unreadPred_eq_true.1 hxp).2
                rw [hunread x hxst hxread]
                simp [hme]
          · intro m' hm' hr'
            rw [hmap] at hm'
            obtain ⟨m0, hm0, heq⟩ := List.mem_map.1 hm'
            by_cases hcond :
                (m0.recipient == strToLower r && txs.any fun u => m0.timestamp == u) = true
            · rw [markFlag, if_pos hcond] at heq
              rw [← heq] at hr'
              simp at hr'
            · rw [markFlag, if_neg hcond] at heq
              rw [← heq] at hr' ⊢
              rw [hcountsplit, injCount_singleton]
              have hmz : inj.mentionsId m0.id = false := by
                cases hme : inj.mentionsId m0.id with
                | false => rfl
                | true =>
                    obtain ⟨x, hxU, hxid⟩ := hMention _ hme
                    obtain ⟨hxst, hxp⟩ := mem_getUnreadMessages.1 hxU
                    have hxeq : x = m0 :=
                      List.inj_on_of_nodup_map hnd hxst hm0 hxid
                    have hcx : (x.recipient == strToLower r &&
                        txs.any fun u => x.timestamp == u) = true := by
                      simp only [Bool.and_eq_true, beq_iff_eq, List.any_eq_true]
                      refine ⟨(unreadPred_eq_true.1 hxp).1, x.timestamp, ?_, rfl⟩
                      rw [htxs]
                      exact List.mem_map.2 ⟨x, hxU, rfl⟩
                    exact absurd (hxeq ▸ hcx) hcond
              rw [hunread m0 hm0 hr']
              simp [hmz]
          · intro e he i hi
            rcases List.mem_append.1 he with he | he
            · exact hbound e he i hi
            · rcases List.mem_append.1 he with he | he
              · obtain ⟨m, _, rfl⟩ := List.mem_map.1 (hmarks ▸ he)
                simp [Event.mentionsId, Event.injMessages] at hi
              · rw [List.mem_singleton.1 he] at hi
                obtain ⟨x, hxU, rfl⟩ := hMention i hi
                exact hlt x (mem_getUnreadMessages.1 hxU).1

theorem step_inv {s : State} {evs : List Event} (op : Op) (h : Inv s evs) :
    Inv (step s op).1 (evs ++ (step s op).2) := by
  cases op with
  | sendMail to_ from_ message ts =>
      simpa [step] using addMessage_inv h (strToLower to_) (strToLower from_) message ts
  | watchUnreadMail name sid instr =>
      simp only [step, List.append_nil]
      exact inv_congr h (startMailWatch_store _ _ _ _) (startMailWatch_nextId _ _ _ _)
  | stopWatchingMail sid =>
      simp only [step, List.append_nil]
      exact inv_congr h (stopWatchingMailTool_store _ _) (stopWatchingMailTool_nextId _ _)
  | sessionEnd sid =>
      simp only [step, List.append_nil]
      exact inv_congr h (sessionEndHook_store _ _) (sessionEndHook_nextId _ _)
  | tick r => exact tick_inv r h

/-! ## Watch-registry lemmas -/

theorem decrementForSession_none :
    ∀ (l : List String) (W : String → Option Watch) (r : String),
      W r = none → (decrementForSession W l).1 r = none := by
  intro l
  induction l with
  | nil => intro W r h; exact h
  | cons x rest ih =>
      intro W r h
      cases hx : W x with
      | none =>
          simp only [decrementForSession, hx]
          exact ih W r h
      | some w =>
          have hrx : r ≠ x := by
            intro he; rw [he, hx] at h; exact Option.noConfusion h
          simp only [decrementForSession, hx]
          split
          · exact ih _ r (by simp [if_neg hrx, h])
          · exact ih _ r (by simp [if_neg hrx, h])

theorem decrementForSession_notin :
    ∀ (l : List String) (W : String → Option Watch) (r : String),
      r ∉ l → (decrementForSession W l).1 r = W r := by
  intro l
  induction l with
  | nil => intro W r _; rfl
  | cons x rest ih =>
      intro W r hr
      have hrx : r ≠ x := fun he => hr (he ▸ List.mem_cons_self x rest)
      have hrest : r ∉ rest := fun he => hr (List.mem_cons_of_mem x he)
      cases hx : W x with
      | none =>
          simp only [decrementForSession, hx]
          exact ih W r hrest
      | some w =>
          simp only [decrementForSession, hx]
          split
          · rw [ih _ r hrest]; simp [if_neg hrx]
          · rw [ih _ r hrest]; simp [if_neg hrx]

theorem decrementForSession_refOne :
    ∀ (l : List String) (W : String → Option Watch) (r : String) (w : Watch),
      W r = some w → w.refCount = 1 → r ∈ l →
      (decrementForSession W l).1 r = none := by
  intro l
  induction l with
  | nil => intro W r w _ _ hmem; exact absurd hmem (List.not_mem_nil r)
  | cons x rest ih =>
      intro W r w hw h1 hmem
      cases hx : W x with
      | none =>
          have hrx : r ≠ x := by
            intro he; rw [he, hx] at hw; exact Option.noConfusion hw
          simp only [decrementForSession, hx]
          exact ih W r w hw h1 ((List.mem_cons.1 hmem).resolve_left hrx)
      | some wx =>
          by_cases hrx : r = x
          · have hwx : wx = w := by
              rw [← hrx, hw] at hx
              exact (Option.some_inj.1 hx).symm
            simp only [decrementForSession, hx, hwx, h1, if_true]
            exact decrementForSession_none rest _ r (by simp [if_pos hrx])
          · simp only [decrementForSession, hx]
            split
            · exact ih _ r w (by simp [if_neg hrx, hw]) h1
                ((List.mem_cons.1 hmem).resolve_left hrx)
            · exact ih _ r w (by simp [if_neg hrx, hw]) h1
                ((List.mem_cons.1 hmem).resolve_left hrx)

theorem tick_noWatch {s : State} {r : String}
    (h : s.activeWatches r = none) : tick s r = (s, []) := by
  simp [tick, h]

theorem tickN_noWatch {s : State} {r : String}
    (h : s.activeWatches r = none) : ∀ n, tickN s r n = (s, []) := by
  intro n
  induction n with
  | zero => rfl
  | succ k ih =>
      simp only [tickN, tick_noWatch h, ih]
      rfl

theorem startMailWatch_fresh {s : State} {recipient : String}
    (hw : s.activeWatches recipient = none) (sid instr : String) :
    (startMailWatch s recipient sid instr).activeWatches recipient =
      some ⟨instr, 1, sid⟩ ∧
    (startMailWatch s recipient sid instr).watchesBySession sid =
      some (addToSet ((s.watchesBySession sid).getD []) recipient) := by
  unfold startMailWatch
  rw [hw]
  constructor <;> simp

theorem startMailWatch_existing {s : State} {recipient : String} {w : Watch}
    (hw : s.activeWatches recipient = some w) (sid instr : String) :
    (startMailWatch s recipient sid instr).activeWatches recipient =
      some { w with refCount := w.refCount + 1 } ∧
    (startMailWatch s recipient sid instr).watchesBySession sid =
      some (addToSet ((s.watchesBySession sid).getD []) recipient) := by
  unfold startMailWatch
  rw [hw]
  constructor <;> simp

theorem iterWatch_state (s : State) (name sid instr : String)
    (hw : s.activeWatches (strToLower name) = none)
    (hs : s.watchesBySession sid = none) :
    ∀ n : Nat,
      (iterWatch s name sid instr (n + 1)).activeWatches (strToLower name) =
        some ⟨instr, n + 1, sid⟩ ∧
      (iterWatch s name sid instr (n + 1)).watchesBySession sid =
        some [strToLower name] := by
  intro n
  induction n with
  | zero =>
      have h := startMailWatch_fresh hw sid instr
      refine ⟨h.1, ?_⟩
      have h2 := h.2
      rw [hs] at h2
      simpa [addToSet] using h2
  | succ k ih =>
      have h := startMailWatch_existing ih.1 sid instr
      refine ⟨h.1, ?_⟩
      have h2 := h.2
      rw [ih.2] at h2
      simpa [addToSet] using h2

theorem runAcc_inv (ops : List Op) :
    ∀ (s : State) (evs : List Event), Inv s evs →
      Inv (runAcc s evs ops).1 (runAcc s evs ops).2 := by
  induction ops with
  | nil => intro s evs h; exact h
  | cons op rest ih =>
      intro s evs h
      show Inv (runAcc (step s op).1 (evs ++ (step s op).2) rest).1
        (runAcc (step s op).1 (evs ++ (step s op).2) rest).2
      exact ih _ _ (step_inv op h)

/-! ## Claim theorems -/

/-- **C9** Unread-fetch ordering: `getUnreadMessages` returns exactly the
stored rows for the recipient whose read flag is unset — a permutation of
the filtered table, membership is store-membership with matching lower-cased
recipient and `read = false` — and the returned sequence is sorted
ascending by timestamp, so one delivery batches all unread messages in
ascending timestamp order. -/
theorem getUnreadMessages_ordered (store : List StoredMessage) (r : String) :
    (getUnreadMessages store r).Perm (store.filter (unreadPred r)) ∧
    (getUnreadMessages store r).Pairwise byTimestamp ∧
    ∀ m, m ∈ getUnreadMessages store r ↔
      m ∈ store ∧ m.recipient = strToLower r ∧ m.read = false := by
  refine ⟨List.perm_insertionSort byTimestamp _,
    List.sorted_insertionSort byTimestamp _, ?_⟩
  intro m
  rw [mem_getUnreadMessages, unreadPred_eq_true]

/-- **C5** Timestamp-collision read-marking: `markMessageAsRead` updates by
`(recipient, timestamp)`, so if two distinct messages to the same recipient
share a timestamp, marking that pair sets the read flag of both. -/
theorem markRead_timestamp_collision (store : List StoredMessage) (r : String)
    (m1 m2 : StoredMessage) (h1 : m1 ∈ store) (h2 : m2 ∈ store)
    (hne : m1 ≠ m2) (hr1 : m1.recipient = strToLower r)
    (hr2 : m2.recipient = strToLower r) (hts : m2.timestamp = m1.timestamp) :
    { m1 with read := true } ∈ markMessageAsRead store r m1.timestamp ∧
    { m2 with read := true } ∈ markMessageAsRead store r m1.timestamp := by
  unfold markMessageAsRead
  constructor
  · refine List.mem_map.2 ⟨m1, h1, ?_⟩
    simp [hr1]
  · refine List.mem_map.2 ⟨m2, h2, ?_⟩
    simp [hr2, hts]

/-- Witness for C5: two distinct messages to samus both carry timestamp 5;
marking `("samus", 5)` read marks both rows. -/
theorem markRead_timestamp_collision_witness :
    ({ id := 0, recipient := "samus", sender := "link", message := "hello",
       timestamp := 5, read := true } : StoredMessage) ∈
      markMessageAsRead
        [⟨0, "samus", "link", "hello", 5, false⟩,
         ⟨1, "samus", "zelda", "hey", 5, false⟩] "samus" 5 ∧
    ({ id := 1, recipient := "samus", sender := "zelda", message := "hey",
       timestamp := 5, read := true } : StoredMessage) ∈
      markMessageAsRead
        [⟨0, "samus", "link", "hello", 5, false⟩,
         ⟨1, "samus", "zelda", "hey", 5, false⟩] "samus" 5 :=
  markRead_timestamp_collision
    [⟨0, "samus", "link", "hello", 5, false⟩,
     ⟨1, "samus", "zelda", "hey", 5, false⟩]
    "samus" ⟨0, "samus", "link", "hello", 5, false⟩
    ⟨1, "samus", "zelda", "hey", 5, false⟩
    (by decide) (by decide) (by decide) (by decide) (by decide) (by decide)

/-- **C4** Mark-then-send: the event sequence of any poll tick splits into a
prefix of mark-read events and a suffix of injections; every message carried
by an injection has its mark-read event in the prefix, and is already
flagged read in the tick's resulting store. -/
theorem tick_marks_before_inject (s : State) (r : String) :
    ∃ marks rest,
      (tick s r).2 = marks ++ rest ∧
      (∀ e ∈ marks, e.isInject = false) ∧
      (∀ e ∈ rest, e.isInject = true) ∧
      (∀ e ∈ rest, ∀ m ∈ e.injMessages,
        Event.markRead r m.timestamp ∈ marks) ∧
      (∀ e ∈ rest, ∀ m ∈ e.injMessages,
        { m with read := true } ∈ (tick s r).1.store) := by
  cases hw : s.activeWatches r with
  | none =>
      refine ⟨[], [], by simp [tick, hw], ?_, ?_, ?_, ?_⟩ <;> simp
  | some w =>
      cases hu : (getUnreadMessages s.store r).isEmpty with
      | true =>
          refine ⟨[], [], by simp [tick, hw, hu], ?_, ?_, ?_, ?_⟩ <;> simp
      | false =>
          refine ⟨(getUnreadMessages s.store r).map
              (fun m => Event.markRead r m.timestamp),
            [Event.inject w.sessionId r (getUnreadMessages s.store r)
              w.instructions],
            by simp [tick, hw, hu], ?_, ?_, ?_, ?_⟩
          · intro e he
            obtain ⟨m, _, rfl⟩ := List.mem_map.1 he
            rfl
          · intro e he
            rw [List.mem_singleton.1 he]
            rfl
          · intro e he m hm
            rw [List.mem_singleton.1 he] at hm
            exact List.mem_map.2 ⟨m, hm, rfl⟩
          · intro e he m hm
            rw [List.mem_singleton.1 he] at hm
            simp only [Event.injMessages] at hm
            have hst : (tick s r).1.store =
                s.store.map (markFlag r
                  ((getUnreadMessages s.store r).map StoredMessage.timestamp)) := by
              simp [tick, hw, hu, markAllRead_eq_map]
            rw [hst]
            obtain ⟨hms, hmp⟩ := mem_getUnreadMessages.1 hm
            have hcond : (m.recipient == strToLower r &&
                ((getUnreadMessages s.store r).map StoredMessage.timestamp).any
                  fun u => m.timestamp == u) = true := by
              simp only [Bool.and_eq_true, beq_iff_eq, List.any_eq_true]
              exact ⟨(unreadPred_eq_true.1 hmp).1,
                m.timestamp, List.mem_map.2 ⟨m, hm, rfl⟩, rfl⟩
            refine List.mem_map.2 ⟨m, hms, ?_⟩
            unfold markFlag
            rw [if_pos hcond]

/-- **C1** At-most-once delivery: starting from any well-formed store, along
any interleaving of sends, watches, unwatches, session ends and poll ticks,
no message id is ever carried by more than one injection event. -/
theorem at_most_once_delivery (s : State) (ops : List Op)
    (hlt : ∀ m ∈ s.store, m.id < s.nextId)
    (hnd : (s.store.map StoredMessage.id).Nodup) :
    ∀ i : Nat, injCount (run s ops).2 i ≤ 1 := by
  have h0 : Inv s [] := by
    refine ⟨⟨hlt, hnd⟩, ?_, ?_, ?_⟩
    · intro i; simp [injCount]
    · intro m _ _; simp [injCount]
    · intro e he; exact absurd he (List.not_mem_nil e)
  exact fun i => (runAcc_inv ops s [] h0).2.1 i

/-- Witness for C1: a concrete trace — watch samus, send one message, then
two poll ticks — injects message id 0 at most once. -/
theorem at_most_once_delivery_witness :
    (∀ m ∈ initState.store, m.id < initState.nextId) ∧
    (initState.store.map StoredMessage.id).Nodup ∧
    injCount (run initState
      [Op.watchUnreadMail "samus" "A" "summarize",
       Op.sendMail "samus" "link" "hi" 100,
       Op.tick "samus", Op.tick "samus"]).2 0 ≤ 1 := by
  refine ⟨fun m hm => absurd hm (List.not_mem_nil m), List.nodup_nil, ?_⟩
  exact at_most_once_delivery initState
    [Op.watchUnreadMail "samus" "A" "summarize",
     Op.sendMail "samus" "link" "hi" 100,
     Op.tick "samus", Op.tick "samus"]
    (fun m hm => absurd hm (List.not_mem_nil m)) List.nodup_nil 0

/-- Sanity check that the C1 bound is tight: in the witness trace the
message is delivered exactly once (the second tick finds nothing). -/
theorem delivered_exactly_once_sample :
    injCount (run initState
      [Op.watchUnreadMail "samus" "A" "summarize",
       Op.sendMail "samus" "link" "hi" 100,
       Op.tick "samus", Op.tick "samus"]).2 0 = 1 := by decide

/-- Counterexample to C2 as stated: a second `watch_unread_mail` call by the
same session A for the same recipient raises samus's refCount from 1 to 2,
so a repeated subscribe by an already-subscribed context does change the
refCount. -/
theorem resubscribe_not_idempotent_cex :
    ((watchUnreadMailTool (watchUnreadMailTool initState "samus" "A" "i")
        "samus" "A" "i").activeWatches "samus").map Watch.refCount = some 2 ∧
    ((watchUnreadMailTool initState "samus" "A" "i").activeWatches
        "samus").map Watch.refCount = some 1 ∧
    ((watchUnreadMailTool (watchUnreadMailTool initState "samus" "A" "i")
        "samus" "A" "i").activeWatches "samus").map Watch.refCount ≠
      ((watchUnreadMailTool initState "samus" "A" "i").activeWatches
        "samus").map Watch.refCount := by
  refine ⟨by decide, by decide, by decide⟩

/-- **C2** (amended) Repeated subscribe by an already-subscribed context:
the watch entry's refCount is incremented by 1 (keeping the creating
session and instructions, i.e. no new poll task is started), the calling
session's recipient set is unchanged, and no other watch entry is
touched. -/
theorem resubscribe_increments_refcount (s : State) (name sid instr : String)
    (w : Watch) (hw : s.activeWatches (strToLower name) = some w)
    (hmem : strToLower name ∈ (s.watchesBySession sid).getD []) :
    (watchUnreadMailTool s name sid instr).activeWatches (strToLower name) =
      some { w with refCount := w.refCount + 1 } ∧
    (watchUnreadMailTool s name sid instr).watchesBySession sid =
      s.watchesBySession sid ∧
    ∀ r, r ≠ strToLower name →
      (watchUnreadMailTool s name sid instr).activeWatches r =
        s.activeWatches r := by
  unfold watchUnreadMailTool
  have h := startMailWatch_existing hw sid instr
  refine ⟨h.1, ?_, ?_⟩
  · cases hbs : s.watchesBySession sid with
    | none =>
        rw [hbs] at hmem
        exact absurd hmem (List.not_mem_nil _)
    | some l =>
        have h2 := h.2
        rw [hbs] at h2 hmem
        simp only [Option.getD_some] at h2 hmem
        rw [h2]
        simp only [addToSet]
        rw [if_pos hmem]
  · intro r hr
    unfold startMailWatch
    rw [hw]
    simp [if_neg hr]

/-- Witness for the amended C2: after A subscribes twice to samus the entry
holds refCount 2 with A still the creating session. -/
theorem resubscribe_increments_refcount_witness :
    (watchUnreadMailTool (watchUnreadMailTool initState "samus" "A" "i")
        "samus" "A" "i").activeWatches "samus" = some ⟨"i", 2, "A"⟩ := by
  have h := resubscribe_increments_refcount
    (watchUnreadMailTool initState "samus" "A" "i") "samus" "A" "i"
    ⟨"i", 1, "A"⟩ (by decide) (by decide)
  exact h.1

/-- Counterexample to C3 as stated: with sessions A and B both subscribed
to samus (refCount 2, B recorded in the session index), the tick that
delivers the pending message emits exactly one injection, addressed to the
watch creator A; no event injects into B. -/
theorem delivery_fanout_cex :
    (fanoutScenario.watchesBySession "B").getD [] = ["samus"] ∧
    (fanoutScenario.activeWatches "samus").map Watch.refCount = some 2 ∧
    (tick fanoutScenario "samus").2 =
      [Event.markRead "samus" 100,
       Event.inject "A" "samus" [⟨0, "samus", "link", "hi", 100, false⟩]
         "summarize"] ∧
    ((tick fanoutScenario "samus").2.filter
      (fun e => e.injSessionId == some "B")) = [] := by
  refine ⟨by decide, by decide, by decide, by decide⟩

/-- **C3** (amended) Delivery goes only to the watch creator: every
injection a tick emits is the single batch addressed to the session that
created the watch entry, with the instructions captured at creation; other
subscribed contexts receive no injection. -/
theorem delivery_only_to_watch_creator (s : State) (r : String) (w : Watch)
    (hw : s.activeWatches r = some w) :
    ∀ e ∈ (tick s r).2, e.isInject = true →
      e = Event.inject w.sessionId r (getUnreadMessages s.store r)
        w.instructions := by
  intro e he hi
  cases hu : (getUnreadMessages s.store r).isEmpty with
  | true =>
      rw [show (tick s r).2 = [] by simp [tick, hw, hu]] at he
      exact absurd he (List.not_mem_nil e)
  | false =>
      rw [show (tick s r).2 = (getUnreadMessages s.store r).map
          (fun m => Event.markRead r m.timestamp) ++
          [Event.inject w.sessionId r (getUnreadMessages s.store r)
            w.instructions] by simp [tick, hw, hu]] at he
      rcases List.mem_append.1 he with he | he
      · obtain ⟨m, _, rfl⟩ := List.mem_map.1 he
        exact absurd hi (by simp [Event.isInject])
      · exact List.mem_singleton.1 he

/-- Witness for the amended C3: in the two-subscriber scenario the tick's
injection event is exactly the batch to creator A with A's instructions. -/
theorem delivery_only_to_watch_creator_witness :
    fanoutScenario.activeWatches "samus" = some ⟨"summarize", 2, "A"⟩ ∧
    Event.inject "A" "samus" [⟨0, "samus", "link", "hi", 100, false⟩]
        "summarize" ∈ (tick fanoutScenario "samus").2 ∧
    Event.inject "A" "samus" [⟨0, "samus", "link", "hi", 100, false⟩]
        "summarize" =
      Event.inject (Watch.sessionId ⟨"summarize", 2, "A"⟩) "samus"
        (getUnreadMessages fanoutScenario.store "samus")
        (Watch.instructions ⟨"summarize", 2, "A"⟩) := by
  refine ⟨by decide, by decide, ?_⟩
  exact delivery_only_to_watch_creator fanoutScenario "samus"
    ⟨"summarize", 2, "A"⟩ (by decide) _ (by decide) (by decide)

/-- **C6** Watch teardown at refCount 0: when `stop_watching_mail` (or the
session-end hook) decrements a watch whose refCount is 1, the entry is
removed from the watch map; any tick firing for a recipient with no entry
is a no-op, and a message sent to the recipient afterwards is appended to
the store while any number of subsequent ticks delivers nothing. -/
theorem watch_teardown_at_zero (s : State) (sid r : String) (w : Watch)
    (hw : s.activeWatches r = some w) (h1 : w.refCount = 1)
    (hmem : r ∈ (s.watchesBySession sid).getD []) :
    ((stopWatchingMailTool s sid).1.activeWatches r = none) ∧
    ((sessionEndHook s sid).activeWatches r = none) ∧
    (∀ t : State, t.activeWatches r = none → tick t r = (t, [])) ∧
    (∀ fr msg ts n,
      (addMessage (stopWatchingMailTool s sid).1 r fr msg ts).store =
        (stopWatchingMailTool s sid).1.store ++
          [⟨(stopWatchingMailTool s sid).1.nextId, strToLower r,
            strToLower fr, msg, ts, false⟩] ∧
      tickN (addMessage (stopWatchingMailTool s sid).1 r fr msg ts) r n =
        (addMessage (stopWatchingMailTool s sid).1 r fr msg ts, [])) := by
  cases hbs : s.watchesBySession sid with
  | none =>
      rw [hbs] at hmem
      exact absurd hmem (List.not_mem_nil r)
  | some recips =>
      rw [hbs] at hmem
      simp only [Option.getD_some] at hmem
      have hstop : (stopWatchingMailTool s sid).1.activeWatches r = none := by
        unfold stopWatchingMailTool
        rw [hbs]
        exact decrementForSession_refOne recips s.activeWatches r w hw h1 hmem
      have hend : (sessionEndHook s sid).activeWatches r = none := by
        unfold sessionEndHook
        rw [hbs]
        exact decrementForSession_refOne recips s.activeWatches r w hw h1 hmem
      refine ⟨hstop, hend, fun t ht => tick_noWatch ht, ?_⟩
      intro fr msg ts n
      refine ⟨rfl, tickN_noWatch ?_ n⟩
      show (stopWatchingMailTool s sid).1.activeWatches r = none
      exact hstop

/-- Witness for C6: A is the only subscriber of samus; after
`stop_watching_mail` the entry is gone and three ticks after a fresh send
deliver nothing. -/
theorem watch_teardown_at_zero_witness :
    ((stopWatchingMailTool (watchUnreadMailTool initState "samus" "A" "keep")
        "A").1.activeWatches "samus" = none) ∧
    tickN (addMessage
        (stopWatchingMailTool (watchUnreadMailTool initState "samus" "A" "keep")
          "A").1 "samus" "link" "hi" 7) "samus" 3 =
      (addMessage
        (stopWatchingMailTool (watchUnreadMailTool initState "samus" "A" "keep")
          "A").1 "samus" "link" "hi" 7, []) := by
  have h := watch_teardown_at_zero
    (watchUnreadMailTool initState "samus" "A" "keep") "A" "samus"
    ⟨"keep", 1, "A"⟩ (by decide) (by decide) (by decide)
  exact ⟨h.1, (h.2.2.2 "link" "hi" 7 3).2⟩

/-- **C7** Store-recovery frame: when a poll tick's store access fails with
a database-file error, the catch handler only invalidates the db handle;
the watch map, the session index and the message table are untouched, and
the next store use reopens the handle. -/
theorem store_failure_frame (s : State) (errMsg : String)
    (h : isDatabaseFileError errMsg = true) :
    (tickStoreFailure s errMsg).dbOpen = false ∧
    (tickStoreFailure s errMsg).activeWatches = s.activeWatches ∧
    (tickStoreFailure s errMsg).watchesBySession = s.watchesBySession ∧
    (tickStoreFailure s errMsg).store = s.store ∧
    ∀ recipient sender msg ts,
      (addMessage (tickStoreFailure s errMsg) recipient sender msg ts).dbOpen =
        true := by
  unfold tickStoreFailure
  rw [if_pos h]
  exact ⟨rfl, rfl, rfl, rfl, fun _ _ _ _ => rfl⟩

/-- Witness for C7: a malformed-database error while samus is watched
resets the handle and leaves the watch intact. -/
theorem store_failure_frame_witness :
    isDatabaseFileError "database disk image is malformed" = true ∧
    (tickStoreFailure (watchUnreadMailTool initState "samus" "A" "i")
        "database disk image is malformed").activeWatches =
      (watchUnreadMailTool initState "samus" "A" "i").activeWatches ∧
    (tickStoreFailure (watchUnreadMailTool initState "samus" "A" "i")
        "database disk image is malformed").dbOpen = false := by
  refine ⟨by decide, ?_, ?_⟩
  · exact (store_failure_frame (watchUnreadMailTool initState "samus" "A" "i")
      "database disk image is malformed" (by decide)).2.1
  · exact (store_failure_frame (watchUnreadMailTool initState "samus" "A" "i")
      "database disk image is malformed" (by decide)).1

/-- **C8** Append retry-once: if the first append of `send_mail` fails with
a database-file error, the connection is reset and the append retried
exactly once (two attempts), a failing retry surfaces its error, and a
non-database-file error is surfaced immediately after a single attempt. -/
theorem sendMail_append_retry_once (s : State) (to_ fr msg : String)
    (ts : Nat) (e1 : String) (o2 : Option String) :
    (isDatabaseFileError e1 = true →
      (sendMailTool s to_ fr msg ts (some e1) o2).2 = 2 ∧
      (sendMailTool s to_ fr msg ts (some e1) o2).1 =
        (match o2 with
         | none => Except.ok (addMessage (resetDatabaseConnection s)
             (strToLower to_) (strToLower fr) msg ts)
         | some e2 => Except.error e2)) ∧
    (isDatabaseFileError e1 = false →
      sendMailTool s to_ fr msg ts (some e1) o2 = (Except.error e1, 1)) := by
  constructor <;> intro h <;>
    cases o2 <;> simp [sendMailTool, attemptAppend, h]

/-- Witness for C8: a locked-database error triggers exactly one retry
(and surfaces the retry's error), while an unclassified error is rethrown
after a single attempt. -/
theorem sendMail_append_retry_once_witness :
    isDatabaseFileError "database is locked" = true ∧
    (sendMailTool initState "samus" "link" "hi" 5
      (some "database is locked") (some "database is locked")).2 = 2 ∧
    isDatabaseFileError "boom" = false ∧
    sendMailTool initState "samus" "link" "hi" 5 (some "boom") none =
      (Except.error "boom", 1) := by
  refine ⟨by decide, ?_, by decide, ?_⟩
  · exact ((sendMail_append_retry_once initState "samus" "link" "hi" 5
      "database is locked" (some "database is locked")).1 (by decide)).1
  · exact (sendMail_append_retry_once initState "samus" "link" "hi" 5
      "boom" none).2 (by decide)

/-- **C10** Residual watch after duplicate subscribes: if one session
subscribes `n ≥ 2` times to the same recipient, a single
`stop_watching_mail` decrements the refCount by exactly 1 — the entry stays
in the watch map with refCount `n - 1` (its poll task still keyed to that
session) — while the session's entry in the session index is deleted, so
the watch stays active with no recorded subscriber. -/
theorem residual_watch_after_duplicate_subscribes (s : State)
    (name sid instr : String) (n : Nat) (h2 : 2 ≤ n)
    (hw : s.activeWatches (strToLower name) = none)
    (hs : s.watchesBySession sid = none) :
    ((stopWatchingMailTool (iterWatch s name sid instr n) sid).1).activeWatches
        (strToLower name) = some ⟨instr, n - 1, sid⟩ ∧
    ((stopWatchingMailTool (iterWatch s name sid instr n)
        sid).1).watchesBySession sid = none := by
  obtain ⟨k, rfl⟩ : ∃ k, n = k + 2 := ⟨n - 2, by omega⟩
  have hit := iterWatch_state s name sid instr hw hs (k + 1)
  constructor
  · unfold stopWatchingMailTool
    rw [show (iterWatch s name sid instr (k + 2)).watchesBySession sid =
      some [strToLower name] from hit.2]
    simp only [decrementForSession,
      show (iterWatch s name sid instr (k + 2)).activeWatches
        (strToLower name) = some ⟨instr, k + 2, sid⟩ from hit.1]
    simp
  · unfold stopWatchingMailTool
    rw [show (iterWatch s name sid instr (k + 2)).watchesBySession sid =
      some [strToLower name] from hit.2]
    simp

/-- Witness for C10: A subscribes twice to samus, then one
`stop_watching_mail`; the watch survives with refCount 1 while A's session
entry is gone. -/
theorem residual_watch_after_duplicate_subscribes_witness :
    (2 : Nat) ≤ 2 ∧
    ((stopWatchingMailTool (iterWatch initState "samus" "A" "keep" 2)
        "A").1).activeWatches "samus" = some ⟨"keep", 1, "A"⟩ ∧
    ((stopWatchingMailTool (iterWatch initState "samus" "A" "keep" 2)
        "A").1).watchesBySession "A" = none := by
  have h := residual_watch_after_duplicate_subscribes initState "samus" "A"
    "keep" 2 (by decide) (by decide) (by decide)
  exact ⟨by decide, h.1, h.2⟩

end Mailbox
